import Mathlib

/-!
Verification development for the PresalesTracker single-page application
(`src/script.js`).  The mutable module state (the `opportunities` and `tasks`
arrays, the undo stack, the sort state and the bulk-selection sets) is embedded
as an explicit `AppState` record, and every state-changing function of the
source is translated to a pure state-passing function.  JavaScript numbers are
modelled as rationals, JS strings as `String`, JS `undefined` results of
`Array.prototype.find` as `Option`, and the stable `Array.prototype.sort` as
`List.mergeSort` on the comparator's non-positive relation.
-/

namespace PresalesTracker

/-- `const DATA_VERSION = 2` -/
def DATA_VERSION : Int := 2

/-- `BANT_THRESHOLDS.HOT` -/
def BANT_THRESHOLDS_HOT : ℚ := 80

/-- `BANT_THRESHOLDS.WARM` -/
def BANT_THRESHOLDS_WARM : ℚ := 55

/-- `const MAX_BANT_SCORE = 20` -/
def MAX_BANT_SCORE : ℚ := 20

/-- `const MAX_UNDO_STACK = 10` -/
def MAX_UNDO_STACK : Nat := 10

/-- The `{budget, authority, need, timeline}` tuple stored on an opportunity. -/
structure Bant where
  budget : ℚ
  authority : ℚ
  need : ℚ
  timeline : ℚ
deriving DecidableEq

/-- An opportunity record, with the exact fields built by `saveOpportunity`.
Optional free-text fields are JS strings (possibly empty). -/
structure Opportunity where
  id : String
  name : String
  client : String
  industry : String
  salesOwner : String
  preSalesOwner : String
  ba : String
  techType : String
  source : String
  dateIdentified : String
  expectedClose : String
  stage : String
  status : String
  dealValue : ℚ
  probability : ℚ
  expectedRevenue : ℚ
  competition : String
  contactName : String
  contactEmail : String
  bant : Bant
  bantTotal : ℚ
  bantPercent : ℚ
  bantSummary : String
deriving DecidableEq

/-- A task record, with the exact fields built by `saveTask`.  The optional
dates and `assignedTo` are empty strings when absent (JS falsy). -/
structure Task where
  id : String
  opportunityId : String
  taskName : String
  assignedTo : String
  role : String
  taskType : String
  startDate : String
  dueDate : String
  status : String
  remarks : String
deriving DecidableEq

/-- Return value of `calculateBANT`. -/
structure BantOutcome where
  total : ℚ
  percent : ℚ
  summary : String
deriving DecidableEq

/-- `calculateExpectedRevenue(dealValue, probability)` -/
def calculateExpectedRevenue (dealValue probability : ℚ) : ℚ :=
  dealValue * (probability / 100)

/-- `calculateBANT(budget, authority, need, timeline)` -/
def calculateBANT (budget authority need timeline : ℚ) : BantOutcome :=
  let total := budget + authority + need + timeline
  let percent := (total / MAX_BANT_SCORE) * 100
  let summary :=
    if percent ≥ BANT_THRESHOLDS_HOT then "Hot"
    else if percent ≥ BANT_THRESHOLDS_WARM then "Warm"
    else "Cold"
  { total := total, percent := percent, summary := summary }

/-- A tagged inverse action on the undo stack (`addToUndoStack` callers).
The single-delete payloads hold the result of `Array.prototype.find`, which is
`undefined` (here `none`) when the id was not present. -/
inductive UndoAction where
  | delete_opportunity (opportunity : Option Opportunity) (tasks : List Task)
  | delete_task (task : Option Task)
  | bulk_delete_opportunities (opportunities : List Opportunity) (tasks : List Task)
  | bulk_delete_tasks (tasks : List Task)
deriving DecidableEq

/-- `'asc'` / `'desc'`. -/
inductive SortDirection where
  | asc
  | desc
deriving DecidableEq

/-- `direction === 'asc' ? 'desc' : 'asc'` -/
def SortDirection.toggle : SortDirection → SortDirection
  | .asc => .desc
  | .desc => .asc

/-- The columns of the `sortOpportunities` switch. -/
inductive OppColumn where
  | id
  | name
  | client
  | industry
  | stage
  | status
  | dealValue
  | probability
  | expectedRevenue
  | bantPercent
  | bantSummary
deriving DecidableEq

/-- The columns of the `sortTasks` switch. -/
inductive TaskColumn where
  | id
  | taskName
  | assignedTo
  | role
  | taskType
  | startDate
  | dueDate
  | status
deriving DecidableEq

/-- The module-level mutable state of `script.js`: the two collections, the
undo stack, the sort state and the bulk-selection sets (JS `Set`s of ids,
modelled as lists). -/
structure AppState where
  opportunities : List Opportunity
  tasks : List Task
  undoStack : List UndoAction
  opportunitySortColumn : Option OppColumn
  opportunitySortDirection : SortDirection
  taskSortColumn : Option TaskColumn
  taskSortDirection : SortDirection
  selectedOpportunities : List String
  selectedTasks : List String
deriving DecidableEq

/-- The initial module state (all collections empty, sort columns `null`,
directions `'asc'`). -/
def emptyState : AppState :=
  { opportunities := []
    tasks := []
    undoStack := []
    opportunitySortColumn := none
    opportunitySortDirection := .asc
    taskSortColumn := none
    taskSortDirection := .asc
    selectedOpportunities := []
    selectedTasks := [] }

/-- `addToUndoStack(action)`: push, then `shift()` the oldest entry when the
stack exceeds `MAX_UNDO_STACK`. -/
def addToUndoStack (stack : List UndoAction) (action : UndoAction) : List UndoAction :=
  let s := stack ++ [action]
  if s.length > MAX_UNDO_STACK then s.drop 1 else s

/-- `undo()`: pop the most recent action and re-insert its payload entities.
A `none` (JS `undefined`) single-delete payload is re-inserted as nothing: the
source would `push(undefined)` onto the array, an element that is not an
entity record and that the record-typed collections of this embedding cannot
hold. -/
def undo (st : AppState) : AppState :=
  match st.undoStack.getLast? with
  | none => st
  | some action =>
    let stack := st.undoStack.dropLast
    match action with
    | .delete_opportunity opportunity ts =>
        { st with
          opportunities := st.opportunities ++ opportunity.toList
          tasks := st.tasks ++ ts
          undoStack := stack }
    | .delete_task task =>
        { st with tasks := st.tasks ++ task.toList, undoStack := stack }
    | .bulk_delete_opportunities opps ts =>
        { st with
          opportunities := st.opportunities ++ opps
          tasks := st.tasks ++ ts
          undoStack := stack }
    | .bulk_delete_tasks ts =>
        { st with tasks := st.tasks ++ ts, undoStack := stack }

/-- `deleteOpportunity(id)`.  `confirmed` is the result of the `confirm()`
dialog; when it is `false` the function returns before doing anything. -/
def deleteOpportunity (st : AppState) (id : String) (confirmed : Bool) : AppState :=
  if !confirmed then st
  else
    let opportunity := st.opportunities.find? (fun opp => opp.id == id)
    let associatedTasks := st.tasks.filter (fun task => task.opportunityId == id)
    { st with
      undoStack := addToUndoStack st.undoStack
        (.delete_opportunity opportunity associatedTasks)
      opportunities := st.opportunities.filter (fun opp => opp.id != id)
      tasks := st.tasks.filter (fun task => task.opportunityId != id) }

/-- `deleteTask(id)`. -/
def deleteTask (st : AppState) (id : String) (confirmed : Bool) : AppState :=
  if !confirmed then st
  else
    let task := st.tasks.find? (fun t => t.id == id)
    { st with
      undoStack := addToUndoStack st.undoStack (.delete_task task)
      tasks := st.tasks.filter (fun t => t.id != id) }

/-- The values read from the opportunity modal form by `saveOpportunity`,
after the source's `parseFloat(...) || 0` and `parseInt(...) || 1` defaults. -/
structure OpportunityForm where
  name : String
  client : String
  industry : String
  salesOwner : String
  preSalesOwner : String
  ba : String
  techType : String
  source : String
  dateIdentified : String
  expectedClose : String
  stage : String
  status : String
  dealValue : ℚ
  probability : ℚ
  competition : String
  contactName : String
  contactEmail : String
  budget : ℚ
  authority : ℚ
  need : ℚ
  timeline : ℚ
deriving DecidableEq

/-- `opportunities[index] = opportunityData` after
`findIndex(opp => opp.id === editingId)`: replace the first record with the
given id, or leave the list unchanged when the index is `-1`. -/
def replaceFirstOpportunity :
    List Opportunity → String → Opportunity → List Opportunity
  | [], _, _ => []
  | opp :: rest, editingId, newOpp =>
      if opp.id == editingId then newOpp :: rest
      else opp :: replaceFirstOpportunity rest editingId newOpp

/-- `saveOpportunity(event)`: build the record (derived fields recomputed via
the calculators), then replace in place when editing or append when adding.
`currentEditingOpportunity` is the module variable; `newId` is the value
`generateOpportunityID()` would produce. -/
def saveOpportunity (st : AppState) (form : OpportunityForm)
    (currentEditingOpportunity : Option String) (newId : String) : AppState :=
  let bant := calculateBANT form.budget form.authority form.need form.timeline
  let expectedRevenue := calculateExpectedRevenue form.dealValue form.probability
  let opportunityData : Opportunity :=
    { id := currentEditingOpportunity.getD newId
      name := form.name
      client := form.client
      industry := form.industry
      salesOwner := form.salesOwner
      preSalesOwner := form.preSalesOwner
      ba := form.ba
      techType := form.techType
      source := form.source
      dateIdentified := form.dateIdentified
      expectedClose := form.expectedClose
      stage := form.stage
      status := form.status
      dealValue := form.dealValue
      probability := form.probability
      expectedRevenue := expectedRevenue
      competition := form.competition
      contactName := form.contactName
      contactEmail := form.contactEmail
      bant :=
        { budget := form.budget
          authority := form.authority
          need := form.need
          timeline := form.timeline }
      bantTotal := bant.total
      bantPercent := bant.percent
      bantSummary := bant.summary }
  match currentEditingOpportunity with
  | some editingId =>
      { st with
        opportunities := replaceFirstOpportunity st.opportunities editingId opportunityData }
  | none =>
      { st with opportunities := st.opportunities ++ [opportunityData] }

/-- The values read from the task modal form by `saveTask`. -/
structure TaskForm where
  opportunityId : String
  taskName : String
  assignedTo : String
  role : String
  taskType : String
  startDate : String
  dueDate : String
  status : String
  remarks : String
deriving DecidableEq

/-- `tasks[index] = taskData` after `findIndex(t => t.id === editingId)`. -/
def replaceFirstTask : List Task → String → Task → List Task
  | [], _, _ => []
  | t :: rest, editingId, newTask =>
      if t.id == editingId then newTask :: rest
      else t :: replaceFirstTask rest editingId newTask

/-- `saveTask(event)`. -/
def saveTask (st : AppState) (form : TaskForm)
    (currentEditingTask : Option String) (newId : String) : AppState :=
  let taskData : Task :=
    { id := currentEditingTask.getD newId
      opportunityId := form.opportunityId
      taskName := form.taskName
      assignedTo := form.assignedTo
      role := form.role
      taskType := form.taskType
      startDate := form.startDate
      dueDate := form.dueDate
      status := form.status
      remarks := form.remarks }
  match currentEditingTask with
  | some editingId =>
      { st with tasks := replaceFirstTask st.tasks editingId taskData }
  | none => { st with tasks := st.tasks ++ [taskData] }

/-- The loop body of `bulkDeleteOpportunities`: for each selected id, when an
opportunity with that id is found, collect it and the tasks whose
`opportunityId` matches the id. -/
def collectBulkDeleted (opps : List Opportunity) (ts : List Task) :
    List String → List Opportunity × List Task
  | [] => ([], [])
  | id :: rest =>
      let acc := collectBulkDeleted opps ts rest
      match opps.find? (fun o => o.id == id) with
      | some opp =>
          (opp :: acc.1, ts.filter (fun t => t.opportunityId == id) ++ acc.2)
      | none => acc

/-- `bulkDeleteOpportunities()`. -/
def bulkDeleteOpportunities (st : AppState) (confirmed : Bool) : AppState :=
  if st.selectedOpportunities.isEmpty then st
  else if !confirmed then st
  else
    let deleted := collectBulkDeleted st.opportunities st.tasks st.selectedOpportunities
    { st with
      undoStack := addToUndoStack st.undoStack
        (.bulk_delete_opportunities deleted.1 deleted.2)
      opportunities :=
        st.opportunities.filter (fun opp => !(st.selectedOpportunities.contains opp.id))
      tasks :=
        st.tasks.filter (fun task =>
          !(deleted.1.any (fun opp => opp.id == task.opportunityId)))
      selectedOpportunities := [] }

/-- `bulkDeleteTasks()`. -/
def bulkDeleteTasks (st : AppState) (confirmed : Bool) : AppState :=
  if st.selectedTasks.isEmpty then st
  else if !confirmed then st
  else
    let deletedTasks :=
      st.selectedTasks.filterMap (fun id => st.tasks.find? (fun t => t.id == id))
    { st with
      undoStack := addToUndoStack st.undoStack (.bulk_delete_tasks deletedTasks)
      tasks := st.tasks.filter (fun task => !(st.selectedTasks.contains task.id))
      selectedTasks := [] }

/-- `opportunities.find(o => o.id === id)` followed by `opp.status = newStatus`:
set the status of the first record with the given id. -/
def setFirstOpportunityStatus :
    List Opportunity → String → String → List Opportunity
  | [], _, _ => []
  | opp :: rest, id, newStatus =>
      if opp.id == id then { opp with status := newStatus } :: rest
      else opp :: setFirstOpportunityStatus rest id newStatus

/-- `bulkUpdateOpportunityStatus(newStatus)` (no undo capture). -/
def bulkUpdateOpportunityStatus (st : AppState) (newStatus : String) : AppState :=
  if st.selectedOpportunities.isEmpty then st
  else
    { st with
      opportunities :=
        st.selectedOpportunities.foldl
          (fun opps id => setFirstOpportunityStatus opps id newStatus)
          st.opportunities
      selectedOpportunities := [] }

/-- `tasks.find(t => t.id === id)` followed by `task.status = newStatus`. -/
def setFirstTaskStatus : List Task → String → String → List Task
  | [], _, _ => []
  | t :: rest, id, newStatus =>
      if t.id == id then { t with status := newStatus } :: rest
      else t :: setFirstTaskStatus rest id newStatus

/-- `bulkUpdateTaskStatus(newStatus)` (no undo capture). -/
def bulkUpdateTaskStatus (st : AppState) (newStatus : String) : AppState :=
  if st.selectedTasks.isEmpty then st
  else
    { st with
      tasks :=
        st.selectedTasks.foldl
          (fun ts id => setFirstTaskStatus ts id newStatus)
          st.tasks
      selectedTasks := [] }

/-- `handleDrop`: a kanban card drop updates the `stage` of the first
opportunity whose id matches the dragged card, when found. -/
def setFirstOpportunityStage :
    List Opportunity → String → String → List Opportunity
  | [], _, _ => []
  | opp :: rest, id, newStage =>
      if opp.id == id then { opp with stage := newStage } :: rest
      else opp :: setFirstOpportunityStage rest id newStage

/-- The Entity-Store effect of `handleDrop(e)` for a dragged card with
`opportunityId` dropped on the column of `newStage`. -/
def handleDrop (st : AppState) (opportunityId newStage : String) : AppState :=
  match st.opportunities.find? (fun opp => opp.id == opportunityId) with
  | some _ =>
      { st with
        opportunities := setFirstOpportunityStage st.opportunities opportunityId newStage }
  | none => st

/-- The JSON snapshot object `{version, exportDate, opportunities, tasks}`. -/
structure Snapshot where
  version : Int
  exportDate : String
  opportunities : List Opportunity
  tasks : List Task
deriving DecidableEq

/-- `exportToJSON()`: the data object serialized to the download file
(`exportDate` is `new Date().toISOString()`, passed in here). -/
def exportToJSON (st : AppState) (exportDate : String) : Snapshot :=
  { version := DATA_VERSION
    exportDate := exportDate
    opportunities := st.opportunities
    tasks := st.tasks }

/-- `migrations[1]`: the v1→v2 step returns the data unchanged. -/
def migration1 (data : List Opportunity × List Task) : List Opportunity × List Task :=
  data

/-- `migrateData(fromVersion, toVersion)`: run each registered step whose key
lies in `[fromVersion, toVersion)`; only `migrations[1]` is registered. -/
def migrateData (st : AppState) (fromVersion toVersion : Int) : AppState :=
  if fromVersion ≤ 1 ∧ 1 < toVersion then
    let result := migration1 (st.opportunities, st.tasks)
    { st with opportunities := result.1, tasks := result.2 }
  else st

/-- `importFromJSON()` applied to an already-parsed snapshot (shape validation
passes for any value of this record type).  `confirmed` is the result of the
`confirm()` dialog; the import replaces both collections verbatim and runs
`migrateData` when the file's version is older than `DATA_VERSION`. -/
def importFromJSON (st : AppState) (data : Snapshot) (confirmed : Bool) : AppState :=
  if !confirmed then st
  else
    let st' := { st with opportunities := data.opportunities, tasks := data.tasks }
    if data.version < DATA_VERSION then migrateData st' data.version DATA_VERSION
    else st'

/-- JS `String.prototype.toLowerCase`, character by character. -/
def strToLower (s : String) : String :=
  ⟨s.data.map Char.toLower⟩

/-- The sort key read by one `case` of the comparator switch: each column
yields either a JS string (compared by code units — its character list under
the lexicographic order) or a JS number; within one column the two kinds
never mix, so the lexicographic sum order restricted to one column's keys
coincides with the JS `<`/`>` comparisons. -/
def oppVal (column : OppColumn) (o : Opportunity) : List Char ⊕ₗ ℚ :=
  match column with
  | .id => toLex (.inl o.id.data)
  | .name => toLex (.inl (strToLower o.name).data)
  | .client => toLex (.inl (strToLower o.client).data)
  | .industry => toLex (.inl o.industry.data)
  | .stage => toLex (.inl o.stage.data)
  | .status => toLex (.inl o.status.data)
  | .dealValue => toLex (.inr o.dealValue)
  | .probability => toLex (.inr o.probability)
  | .expectedRevenue => toLex (.inr o.expectedRevenue)
  | .bantPercent => toLex (.inr o.bantPercent)
  | .bantSummary => toLex (.inl o.bantSummary.data)

/-- `sortTasks` keys (`|| ''` handled by the empty-string encoding). -/
def taskVal (column : TaskColumn) (t : Task) : List Char ⊕ₗ ℚ :=
  match column with
  | .id => toLex (.inl t.id.data)
  | .taskName => toLex (.inl (strToLower t.taskName).data)
  | .assignedTo => toLex (.inl (strToLower t.assignedTo).data)
  | .role => toLex (.inl t.role.data)
  | .taskType => toLex (.inl t.taskType.data)
  | .startDate => toLex (.inl t.startDate.data)
  | .dueDate => toLex (.inl t.dueDate.data)
  | .status => toLex (.inl t.status.data)

/-- The comparator body shared by `sortOpportunities` and `sortTasks`:
`aVal < bVal` returns `-1` for `'asc'` and `1` for `'desc'`, `aVal > bVal` the
opposite, equal values return `0`. -/
def jsCompare {α : Type} [LinearOrder α] (direction : SortDirection) (a b : α) : Int :=
  match direction with
  | .asc => if a < b then -1 else if b < a then 1 else 0
  | .desc => if a < b then 1 else if b < a then -1 else 0

/-- `Array.prototype.sort` keeps an element before another exactly when the
comparator is non-positive on the pair. -/
def oppSortLe (column : OppColumn) (direction : SortDirection)
    (a b : Opportunity) : Prop :=
  jsCompare direction (oppVal column a) (oppVal column b) ≤ 0

instance (column : OppColumn) (direction : SortDirection) :
    DecidableRel (oppSortLe column direction) := by
  unfold oppSortLe
  infer_instance

def taskSortLe (column : TaskColumn) (direction : SortDirection)
    (a b : Task) : Prop :=
  jsCompare direction (taskVal column a) (taskVal column b) ≤ 0

instance (column : TaskColumn) (direction : SortDirection) :
    DecidableRel (taskSortLe column direction) := by
  unfold taskSortLe
  infer_instance

/-- `sortOpportunities(column)`: toggle the direction on a repeated column,
reset to `'asc'` on a new one, then stable-sort the collection in place
(`Array.prototype.sort` is stable; the stable sort of a total-preorder
comparator is modelled by insertion sort). -/
def sortOpportunities (st : AppState) (column : OppColumn) : AppState :=
  let direction :=
    if st.opportunitySortColumn = some column then st.opportunitySortDirection.toggle
    else .asc
  { st with
    opportunitySortColumn := some column
    opportunitySortDirection := direction
    opportunities := st.opportunities.insertionSort (oppSortLe column direction) }

/-- `sortTasks(column)`. -/
def sortTasks (st : AppState) (column : TaskColumn) : AppState :=
  let direction :=
    if st.taskSortColumn = some column then st.taskSortDirection.toggle
    else .asc
  { st with
    taskSortColumn := some column
    taskSortDirection := direction
    tasks := st.tasks.insertionSort (taskSortLe column direction) }

/-- `List.isPrefixOf`-based containment of character lists, the recursion of
JS `String.prototype.includes`. -/
def charsContain (hay sub : List Char) : Bool :=
  match hay with
  | [] => sub.isEmpty
  | _ :: t => sub.isPrefixOf hay || charsContain t sub

/-- JS `s.includes(sub)`. -/
def strIncludes (s sub : String) : Bool :=
  charsContain s.data sub.data

/-- The filter step of `renderOpportunities()`: case-insensitive substring
match on name/client/id plus exact-match stage and status filters (an empty
filter value is falsy and matches everything). -/
def filteredOpportunities (opps : List Opportunity)
    (searchTerm filterStage filterStatus : String) : List Opportunity :=
  opps.filter (fun opp =>
    (searchTerm == ""
      || strIncludes (strToLower opp.name) searchTerm
      || strIncludes (strToLower opp.client) searchTerm
      || strIncludes (strToLower opp.id) searchTerm)
    && (filterStage == "" || opp.stage == filterStage)
    && (filterStatus == "" || opp.status == filterStatus))

/-- The filter step of `renderTasks()`. -/
def filteredTasks (ts : List Task)
    (searchTerm filterStatus filterOpportunity : String) : List Task :=
  ts.filter (fun task =>
    (searchTerm == ""
      || strIncludes (strToLower task.taskName) searchTerm
      || (task.assignedTo != "" && strIncludes (strToLower task.assignedTo) searchTerm)
      || strIncludes (strToLower task.id) searchTerm)
    && (filterStatus == "" || task.status == filterStatus)
    && (filterOpportunity == "" || task.opportunityId == filterOpportunity))

/-- The day bucket of `createCalendarDay`: the tasks whose `dueDate` is set
and falls on the cell's calendar date (the source compares
`new Date(dueDate).toDateString()` with the cell date; for the stored
`YYYY-MM-DD` strings this is date-only equality, modelled on the strings). -/
def dayTasks (ts : List Task) (date : String) : List Task :=
  ts.filter (fun task => task.dueDate != "" && task.dueDate == date)

/-- The task labels of a calendar day cell: `dayTasks.slice(0, 3)` rendered by
task name. -/
def dayCellLabels (ts : List Task) (date : String) : List String :=
  ((dayTasks ts date).take 3).map (fun task => task.taskName)

/-- The `+X more` overflow indicator of a day cell, shown only when more than
3 tasks are due. -/
def dayCellMore (ts : List Task) (date : String) : Option Nat :=
  if (dayTasks ts date).length > 3 then some ((dayTasks ts date).length - 3)
  else none

/-- The kanban bucket of `renderKanbanBoard` for one stage column. -/
def stageOpportunities (opps : List Opportunity) (stage : String) : List Opportunity :=
  opps.filter (fun opp => opp.stage == stage)

/-- The numbers `updateDashboard()` writes into the stat tiles. -/
structure DashboardStats where
  totalOpps : Nat
  openOpps : Nat
  wonOpps : Nat
  lostOpps : Nat
  totalPipelineValue : ℚ
  totalExpectedRevenue : ℚ
  avgDealSize : ℚ
  avgProbability : ℚ
  avgBANT : ℚ
  hotLeads : Nat
  warmLeads : Nat
  coldLeads : Nat
  totalTasks : Nat
  completedTasks : Nat
  progressTasks : Nat
  delayedTasks : Nat
deriving DecidableEq

/-- `updateDashboard()`: the dashboard aggregates, computed by a full pass of
filters and `reduce` sums over the two collections (averages fall back to `0`
on an empty collection, as in the source's `totalOpps > 0 ? ... : 0`). -/
def updateDashboard (st : AppState) : DashboardStats :=
  let totalOpps := st.opportunities.length
  let totalPipelineValue :=
    st.opportunities.foldl (fun sum opp => sum + opp.dealValue) 0
  { totalOpps := totalOpps
    openOpps := (st.opportunities.filter (fun opp => opp.status == "Open")).length
    wonOpps := (st.opportunities.filter (fun opp => opp.status == "Won")).length
    lostOpps := (st.opportunities.filter (fun opp => opp.status == "Lost")).length
    totalPipelineValue := totalPipelineValue
    totalExpectedRevenue :=
      st.opportunities.foldl (fun sum opp => sum + opp.expectedRevenue) 0
    avgDealSize :=
      if totalOpps > 0 then totalPipelineValue / (totalOpps : ℚ) else 0
    avgProbability :=
      if totalOpps > 0 then
        (st.opportunities.foldl (fun sum opp => sum + opp.probability) 0)
          / (totalOpps : ℚ)
      else 0
    avgBANT :=
      if totalOpps > 0 then
        (st.opportunities.foldl (fun sum opp => sum + opp.bantPercent) 0)
          / (totalOpps : ℚ)
      else 0
    hotLeads :=
      (st.opportunities.filter (fun opp => opp.bantSummary == "Hot")).length
    warmLeads :=
      (st.opportunities.filter (fun opp => opp.bantSummary == "Warm")).length
    coldLeads :=
      (st.opportunities.filter (fun opp => opp.bantSummary == "Cold")).length
    totalTasks := st.tasks.length
    completedTasks := (st.tasks.filter (fun task => task.status == "Completed")).length
    progressTasks := (st.tasks.filter (fun task => task.status == "In Progress")).length
    delayedTasks := (st.tasks.filter (fun task => task.status == "Delayed")).length }

/-- The derived-field invariant of one opportunity record: `expectedRevenue`,
`bantTotal`, `bantPercent` and `bantSummary` agree with the Domain
Calculators applied to the record's own inputs. -/
def goodOpp (o : Opportunity) : Prop :=
  o.expectedRevenue = calculateExpectedRevenue o.dealValue o.probability
  ∧ o.bantTotal =
      (calculateBANT o.bant.budget o.bant.authority o.bant.need o.bant.timeline).total
  ∧ o.bantPercent =
      (calculateBANT o.bant.budget o.bant.authority o.bant.need o.bant.timeline).percent
  ∧ o.bantSummary =
      (calculateBANT o.bant.budget o.bant.authority o.bant.need o.bant.timeline).summary

instance (o : Opportunity) : Decidable (goodOpp o) := by
  unfold goodOpp
  infer_instance

/-- Every opportunity record held in an undo-action payload satisfies the
derived-field invariant. -/
def actionGood : UndoAction → Prop
  | .delete_opportunity o _ => ∀ x ∈ o.toList, goodOpp x
  | .delete_task _ => True
  | .bulk_delete_opportunities os _ => ∀ x ∈ os, goodOpp x
  | .bulk_delete_tasks _ => True

instance : (a : UndoAction) → Decidable (actionGood a)
  | .delete_opportunity o _ => inferInstanceAs (Decidable (∀ x ∈ o.toList, goodOpp x))
  | .delete_task _ => inferInstanceAs (Decidable True)
  | .bulk_delete_opportunities os _ => inferInstanceAs (Decidable (∀ x ∈ os, goodOpp x))
  | .bulk_delete_tasks _ => inferInstanceAs (Decidable True)

/-- The state-wide derived-field invariant: every stored opportunity and every
opportunity captured on the undo stack satisfies `goodOpp`. -/
def Inv (st : AppState) : Prop :=
  (∀ o ∈ st.opportunities, goodOpp o) ∧ ∀ a ∈ st.undoStack, actionGood a

instance (st : AppState) : Decidable (Inv st) := by
  unfold Inv
  infer_instance

/-- The actions `undo()` pops (and replays) across `n` consecutive calls. -/
def poppedActions : Nat → AppState → List UndoAction
  | 0, _ => []
  | n + 1, st => st.undoStack.getLast?.toList ++ poppedActions n (undo st)

/-! Concrete sample records used by witnesses and counterexamples. -/

/-- The spec's example opportunity, with consistent derived fields
(`100000 * 40 / 100 = 40000`, BANT `4+3+5+4 = 16`, percent `80`, `Hot`). -/
def oppA : Opportunity :=
  { id := "OP-2025-A-1"
    name := "Acme ERP"
    client := "Acme Co"
    industry := "Healthcare"
    salesOwner := "Sam"
    preSalesOwner := "Pat"
    ba := "Bo"
    techType := "AI"
    source := "RFP"
    dateIdentified := "2025-01-01"
    expectedClose := "2025-06-30"
    stage := "Lead"
    status := "Open"
    dealValue := 100000
    probability := 40
    expectedRevenue := 40000
    competition := ""
    contactName := ""
    contactEmail := ""
    bant := { budget := 4, authority := 3, need := 5, timeline := 4 }
    bantTotal := 16
    bantPercent := 80
    bantSummary := "Hot" }

def oppB : Opportunity :=
  { oppA with id := "OP-2025-B-2", name := "Beta CRM", client := "Beta LLC" }

/-- Same `name` as `oppA` (a sort tie on the name column), different id. -/
def oppTie : Opportunity :=
  { oppA with id := "OP-2025-C-3", client := "Gamma Inc" }

def taskA : Task :=
  { id := "TSK-A-1"
    opportunityId := "OP-2025-A-1"
    taskName := "Draft proposal"
    assignedTo := "Sam"
    role := "Sales"
    taskType := "Document"
    startDate := "2025-01-02"
    dueDate := "2025-01-10"
    status := "Not Started"
    remarks := "" }

def taskB : Task :=
  { taskA with
    id := "TSK-B-2"
    opportunityId := "OP-2025-B-2"
    taskName := "Review deck"
    dueDate := "2025-01-12" }

def taskC : Task :=
  { taskA with id := "TSK-C-3", taskName := "Call client" }

def taskD : Task :=
  { taskA with id := "TSK-D-4", taskName := "Send quote" }

/-- A state with two opportunities (the one to delete listed first) and tasks
of both. -/
def stateAB1 : AppState :=
  { emptyState with opportunities := [oppA, oppB], tasks := [taskA, taskB] }

/-- A state whose opportunities are not in ascending name order. -/
def stateBA : AppState :=
  { emptyState with opportunities := [oppB, oppA] }

/-- The collections of `stateAB1` under different UI state (sort column,
direction and a bulk selection). -/
def stateAB1Sel : AppState :=
  { stateAB1 with
    opportunitySortColumn := some OppColumn.name
    opportunitySortDirection := .desc
    selectedOpportunities := ["OP-2025-A-1"] }

/-- A state with a tie on the name column. -/
def stateTie : AppState :=
  { emptyState with opportunities := [oppA, oppTie] }

/-- Three tasks due on the same date. -/
def threeTasks : List Task := [taskA, taskC, taskD]

/-- Four tasks due on the same date. -/
def fourTasks : List Task :=
  [taskA, taskC, taskD, { taskA with id := "TSK-E-5", taskName := "Book demo" }]

/-- An import snapshot carrying an opportunity whose `expectedRevenue` does
not match the calculator output for its own `dealValue`/`probability`. -/
def badSnap : Snapshot :=
  { version := 2
    exportDate := "2025-02-01T00:00:00.000Z"
    opportunities := [{ oppA with expectedRevenue := 999 }]
    tasks := [] }

/-- A task-delete undo action tagged by an id suffix, for building distinct
stack entries. -/
def wAction (s : String) : UndoAction :=
  .delete_task (some { taskA with id := s })

/-- A state whose undo stack is full (10 distinct actions). -/
def fullStackState : AppState :=
  { emptyState with
    undoStack :=
      ["0", "1", "2", "3", "4", "5", "6", "7", "8", "9"].map wAction }

end PresalesTracker

namespace PresalesTracker

/-- Claim C2: for all four BANT component inputs, `calculateBANT` returns
`total` equal to their sum, `percent = total / 20 * 100`, and `summary`
`"Hot"` iff `percent ≥ 80`, `"Warm"` iff `55 ≤ percent < 80`, else `"Cold"`;
the boundary totals 16, 11 and 10 give `Hot`, `Warm` and `Cold`; the function
accepts arbitrary (also out-of-range) components, since it is total on ℚ. -/
theorem calculateBANT_spec (budget authority need timeline : ℚ) :
    (calculateBANT budget authority need timeline).total
        = budget + authority + need + timeline
    ∧ (calculateBANT budget authority need timeline).percent
        = (budget + authority + need + timeline) / 20 * 100
    ∧ ((calculateBANT budget authority need timeline).summary = "Hot"
        ↔ 80 ≤ (calculateBANT budget authority need timeline).percent)
    ∧ ((calculateBANT budget authority need timeline).summary = "Warm"
        ↔ 55 ≤ (calculateBANT budget authority need timeline).percent
          ∧ (calculateBANT budget authority need timeline).percent < 80)
    ∧ ((calculateBANT budget authority need timeline).summary = "Cold"
        ↔ (calculateBANT budget authority need timeline).percent < 55)
    ∧ (calculateBANT 4 4 4 4).percent = 80
    ∧ (calculateBANT 4 4 4 4).summary = "Hot"
    ∧ (calculateBANT 4 3 2 2).total = 11
    ∧ (calculateBANT 4 3 2 2).percent = 55
    ∧ (calculateBANT 4 3 2 2).summary = "Warm"
    ∧ (calculateBANT 4 3 2 1).total = 10
    ∧ (calculateBANT 4 3 2 1).percent = 50
    ∧ (calculateBANT 4 3 2 1).summary = "Cold" := by
  simp only [calculateBANT, BANT_THRESHOLDS_HOT, BANT_THRESHOLDS_WARM,
    MAX_BANT_SCORE]
  refine ⟨trivial, trivial, ?_, ?_, ?_, by norm_num, by norm_num, by norm_num,
    by norm_num, by norm_num, by norm_num, by norm_num, by norm_num⟩
  · constructor
    · intro h
      by_contra hlt
      push_neg at hlt
      simp only [not_le.mpr hlt] at h
      split_ifs at h <;> simp_all
    · intro h
      simp [h]
  · constructor
    · intro h
      split_ifs at h with h1 h2
      · simp_all
      · exact ⟨h2, lt_of_not_le h1⟩
      · simp_all
    · rintro ⟨h1, h2⟩
      rw [if_neg (not_le.mpr h2), if_pos h1]
  · constructor
    · intro h
      split_ifs at h with h1 h2
      · simp_all
      · simp_all
      · exact lt_of_not_le h2
    · intro h
      rw [if_neg (not_le.mpr (h.trans (by norm_num))), if_neg (not_le.mpr h)]

/-- Claim C10: each sort call only permutes its own collection and leaves the
other collection (and the undo history) untouched; since the records of the
permuted list are the records of the original, none is created, dropped or
edited. -/
theorem sorts_only_permute (st : AppState) (c : OppColumn) (c' : TaskColumn) :
    (sortOpportunities st c).opportunities.Perm st.opportunities
    ∧ (sortOpportunities st c).tasks = st.tasks
    ∧ (sortOpportunities st c).undoStack = st.undoStack
    ∧ (sortTasks st c').tasks.Perm st.tasks
    ∧ (sortTasks st c').opportunities = st.opportunities
    ∧ (sortTasks st c').undoStack = st.undoStack :=
  ⟨List.perm_insertionSort _ _, rfl, rfl, List.perm_insertionSort _ _, rfl, rfl⟩

/-- Claim C6, counterexample: computing the table-sort view projection
mutates the opportunities collection — sorting the out-of-order collection
`[oppB, oppA]` by name reorders the stored records in place. -/
theorem view_mutation_counterexample :
    (sortOpportunities stateBA .name).opportunities ≠ stateBA.opportunities := by
  decide

/-- Claim C6, amended: the filter, calendar and kanban projections return
sublists of the stored collections (no record added, removed, reordered
relative to one another, or modified) and touch no state; the dashboard
aggregates are a pure function of the two collections alone — states with the
same collections yield identical stats, whatever the sort or selection state;
the sort projections, by contrast, reorder the stored collection itself —
each sort permutes its collection in place, adding, dropping and editing no
record and leaving the other collection unchanged. -/
theorem views_and_sorts_amended :
    (∀ (opps : List Opportunity) (s g u : String),
        (filteredOpportunities opps s g u).Sublist opps)
    ∧ (∀ (ts : List Task) (s u o : String), (filteredTasks ts s u o).Sublist ts)
    ∧ (∀ (ts : List Task) (d : String), (dayTasks ts d).Sublist ts)
    ∧ (∀ (opps : List Opportunity) (g : String),
        (stageOpportunities opps g).Sublist opps)
    ∧ (∀ (st st' : AppState), st.opportunities = st'.opportunities →
        st.tasks = st'.tasks → updateDashboard st = updateDashboard st')
    ∧ (∀ (st : AppState) (c : OppColumn),
        (sortOpportunities st c).opportunities.Perm st.opportunities
        ∧ (sortOpportunities st c).tasks = st.tasks)
    ∧ (∀ (st : AppState) (c : TaskColumn),
        (sortTasks st c).tasks.Perm st.tasks
        ∧ (sortTasks st c).opportunities = st.opportunities) := by
  refine ⟨fun _ _ _ _ => List.filter_sublist _, fun _ _ _ _ => List.filter_sublist _,
    fun _ _ => List.filter_sublist _, fun _ _ => List.filter_sublist _, ?_,
    fun _ _ => ⟨List.perm_insertionSort _ _, rfl⟩,
    fun _ _ => ⟨List.perm_insertionSort _ _, rfl⟩⟩
  intro st st' hopps htasks
  unfold updateDashboard
  rw [hopps, htasks]

/-- Claim C6, witness: the dashboard aggregates coincide on two concrete
states sharing the collections but differing in sort column, direction and
bulk selection. -/
theorem views_and_sorts_amended_witness :
    updateDashboard stateAB1 = updateDashboard stateAB1Sel :=
  views_and_sorts_amended.2.2.2.2.1 stateAB1 stateAB1Sel rfl rfl

/-- Claim C8: exporting the snapshot object and importing it back (with the
confirmation dialog accepted) restores both collections exactly; the export
always stamps the current `DATA_VERSION`, so the import takes the
no-migration path. -/
theorem export_import_round_trip (st target : AppState) (exportDate : String) :
    (importFromJSON target (exportToJSON st exportDate) true).opportunities
        = st.opportunities
    ∧ (importFromJSON target (exportToJSON st exportDate) true).tasks
        = st.tasks := by
  constructor <;> simp [importFromJSON, exportToJSON, DATA_VERSION]

/-- Claim C5: deleting by an id that is not present is not a benign no-op.
The collections are indeed unchanged, but both `deleteOpportunity` and
`deleteTask` still push an undo record — carrying the `undefined`
(`none`) result of the failed lookup — onto the undo stack, so the undo
history observably changes and a later `undo()` pops the junk record instead
of the previous real action. -/
theorem delete_missing_id_mutates_history :
    (deleteOpportunity stateAB1 "OP-MISSING" true).opportunities
        = stateAB1.opportunities
    ∧ (deleteOpportunity stateAB1 "OP-MISSING" true).tasks = stateAB1.tasks
    ∧ (deleteOpportunity stateAB1 "OP-MISSING" true).undoStack
        = [.delete_opportunity none []]
    ∧ (deleteOpportunity stateAB1 "OP-MISSING" true).undoStack
        ≠ stateAB1.undoStack
    ∧ (deleteTask stateAB1 "TSK-MISSING" true).tasks = stateAB1.tasks
    ∧ (deleteTask stateAB1 "TSK-MISSING" true).undoStack = [.delete_task none]
    ∧ (deleteTask stateAB1 "TSK-MISSING" true).undoStack ≠ stateAB1.undoStack
    ∧ undo (deleteOpportunity stateAB1 "OP-MISSING" true)
        = { stateAB1 with undoStack := [] } := by
  refine ⟨?_, ?_, ?_, ?_, ?_, ?_, ?_, ?_⟩ <;> decide

/-! Helper lemmas about the undo stack. -/

theorem addToUndoStack_getLast? (s : List UndoAction) (a : UndoAction) :
    (addToUndoStack s a).getLast? = some a := by
  simp only [addToUndoStack]
  split
  · cases s with
    | nil => simp [MAX_UNDO_STACK] at *
    | cons b t =>
        simp only [List.cons_append, List.drop_succ_cons, List.drop_zero]
        exact List.getLast?_concat t
  · exact List.getLast?_concat s

theorem addToUndoStack_mem {s : List UndoAction} {a b : UndoAction}
    (h : b ∈ addToUndoStack s a) : b ∈ s ∨ b = a := by
  simp only [addToUndoStack] at h
  split at h
  · simpa using List.mem_append.mp (List.drop_subset _ _ h)
  · simpa using List.mem_append.mp h

theorem undo_undoStack (st : AppState) :
    (undo st).undoStack = st.undoStack.dropLast := by
  unfold undo
  cases h : st.undoStack.getLast? with
  | none => simp [List.getLast?_eq_none_iff.mp h]
  | some a => cases a <;> rfl

theorem poppedActions_subset :
    ∀ (n : Nat) (st : AppState), poppedActions n st ⊆ st.undoStack := by
  intro n
  induction n with
  | zero => intro st a ha; simp [poppedActions] at ha
  | succ n ih =>
      intro st a ha
      rcases List.mem_append.mp ha with h | h
      · cases hl : st.undoStack.getLast? with
        | none => rw [hl] at h; simp at h
        | some b =>
            rw [hl] at h
            simp only [Option.toList_some, List.mem_singleton] at h
            subst h
            exact List.mem_of_getLast?_eq_some hl
      · have := ih (undo st) h
        rw [undo_undoStack] at this
        exact List.dropLast_sublist _ |>.subset this

/-- Claim C4, theorem: the undo stack never exceeds capacity 10; pushing onto
a full stack of 10 drops the oldest action and keeps the 10 most recent; the
evicted action is no longer on the stack, and since every action any series
of `undo()` calls ever pops is a member of the stack at the start of the
series, no sequence of undos can replay (and hence restore the payload of)
the evicted action. -/
theorem undo_stack_capacity (st : AppState) (a e : UndoAction)
    (hhead : st.undoStack.head? = some e)
    (hlen : st.undoStack.length = 10)
    (hnotin : e ∉ st.undoStack.tail)
    (hne : e ≠ a) :
    (∀ (s : List UndoAction) (b : UndoAction), s.length ≤ 10 →
        (addToUndoStack s b).length ≤ 10)
    ∧ st.undoStack = e :: st.undoStack.tail
    ∧ addToUndoStack st.undoStack a = st.undoStack.tail ++ [a]
    ∧ e ∉ addToUndoStack st.undoStack a
    ∧ ∀ (st' : AppState), st'.undoStack = addToUndoStack st.undoStack a →
        ∀ (n : Nat), e ∉ poppedActions n st' := by
  have hcons : st.undoStack = e :: st.undoStack.tail := by
    cases hs : st.undoStack with
    | nil => rw [hs] at hhead; simp at hhead
    | cons b t =>
        rw [hs] at hhead
        simp only [List.head?_cons, Option.some.injEq] at hhead
        simp [hhead]
  have hcap : ∀ (s : List UndoAction) (b : UndoAction), s.length ≤ 10 →
      (addToUndoStack s b).length ≤ 10 := by
    intro s b hs
    simp only [addToUndoStack]
    split <;>
      · simp only [List.length_drop, List.length_append, List.length_cons,
          List.length_nil, MAX_UNDO_STACK] at *
        omega
  have hpush : addToUndoStack st.undoStack a = st.undoStack.tail ++ [a] := by
    simp only [addToUndoStack]
    rw [if_pos (by simp [hlen, MAX_UNDO_STACK])]
    cases hs : st.undoStack with
    | nil => rw [hs] at hlen; simp at hlen
    | cons b t => simp
  have hmem : e ∉ addToUndoStack st.undoStack a := by
    rw [hpush]
    intro hin
    rcases List.mem_append.mp hin with h | h
    · exact hnotin h
    · exact hne (List.mem_singleton.mp h)
  refine ⟨hcap, hcons, hpush, hmem, ?_⟩
  intro st' hst' n hin
  exact hmem (hst' ▸ poppedActions_subset n st' hin)

/-- Claim C4, witness: a concrete full stack of ten distinct actions,
an eleventh push, and the instantiated conclusions. -/
theorem undo_stack_capacity_witness :
    addToUndoStack fullStackState.undoStack (wAction "X")
        = fullStackState.undoStack.tail ++ [wAction "X"]
    ∧ wAction "0" ∉ addToUndoStack fullStackState.undoStack (wAction "X") := by
  have h := undo_stack_capacity fullStackState (wAction "X") (wAction "0")
    (by decide) (by decide) (by decide) (by decide)
  exact ⟨h.2.2.1, h.2.2.2.1⟩

/-- Claim C1, counterexample: deleting an opportunity that is not the last
element of the collection and undoing immediately afterwards does not restore
the collection byte-for-byte — `undo()` re-appends the deleted record at the
end, so `[oppA, oppB]` comes back as `[oppB, oppA]`. -/
theorem delete_undo_not_exact_counterexample :
    (undo (deleteOpportunity stateAB1 "OP-2025-A-1" true)).opportunities
      ≠ stateAB1.opportunities := by
  decide

/-- Claim C1, amended: for an id that is present (exactly once),
`deleteOpportunity` removes that opportunity and exactly the tasks whose
`opportunityId` matches (no others), and an immediate `undo()` re-inserts the
same opportunity and exactly those tasks — but appended at the end of each
collection: the restored collections are permutations of the pre-delete ones
(the same records, field for field), equal to them only when the removed
records already sat at the end. -/
theorem delete_undo_amended (st : AppState) (id : String) (opp : Opportunity)
    (hfind : st.opportunities.find? (fun o => o.id == id) = some opp)
    (huniq : st.opportunities.filter (fun o => o.id == id) = [opp]) :
    (deleteOpportunity st id true).opportunities
        = st.opportunities.filter (fun o => o.id != id)
    ∧ (deleteOpportunity st id true).tasks
        = st.tasks.filter (fun t => t.opportunityId != id)
    ∧ (undo (deleteOpportunity st id true)).opportunities
        = st.opportunities.filter (fun o => o.id != id) ++ [opp]
    ∧ (undo (deleteOpportunity st id true)).tasks
        = st.tasks.filter (fun t => t.opportunityId != id)
          ++ st.tasks.filter (fun t => t.opportunityId == id)
    ∧ (undo (deleteOpportunity st id true)).opportunities.Perm st.opportunities
    ∧ (undo (deleteOpportunity st id true)).tasks.Perm st.tasks := by
  have hdel : deleteOpportunity st id true =
      { st with
        undoStack := addToUndoStack st.undoStack
          (.delete_opportunity (some opp) (st.tasks.filter (fun t => t.opportunityId == id)))
        opportunities := st.opportunities.filter (fun o => o.id != id)
        tasks := st.tasks.filter (fun t => t.opportunityId != id) } := by
    unfold deleteOpportunity
    rw [if_neg (by simp), hfind]
  have hlast : (deleteOpportunity st id true).undoStack.getLast?
      = some (.delete_opportunity (some opp)
          (st.tasks.filter (fun t => t.opportunityId == id))) := by
    rw [hdel]
    exact addToUndoStack_getLast? _ _
  have hundo : undo (deleteOpportunity st id true) =
      { deleteOpportunity st id true with
        opportunities := (deleteOpportunity st id true).opportunities ++ [opp]
        tasks := (deleteOpportunity st id true).tasks
          ++ st.tasks.filter (fun t => t.opportunityId == id)
        undoStack := (deleteOpportunity st id true).undoStack.dropLast } := by
    unfold undo
    rw [hlast]
    rfl
  have hops : (undo (deleteOpportunity st id true)).opportunities
      = st.opportunities.filter (fun o => o.id != id) ++ [opp] := by
    rw [hundo]
    simp only [hdel]
  have htks : (undo (deleteOpportunity st id true)).tasks
      = st.tasks.filter (fun t => t.opportunityId != id)
        ++ st.tasks.filter (fun t => t.opportunityId == id) := by
    rw [hundo]
    simp only [hdel]
  have hflip : ∀ (l : List Opportunity),
      l.filter (fun o => !(o.id != id)) = l.filter (fun o => o.id == id) := by
    intro l
    apply List.filter_congr
    intro x _
    simp [bne]
  have hflipT : ∀ (l : List Task),
      l.filter (fun t => !(t.opportunityId != id))
        = l.filter (fun t => t.opportunityId == id) := by
    intro l
    apply List.filter_congr
    intro x _
    simp [bne]
  refine ⟨by rw [hdel], by rw [hdel], hops, htks, ?_, ?_⟩
  · rw [hops, ← huniq, ← hflip]
    exact List.filter_append_perm _ _
  · rw [htks, ← hflipT]
    exact List.filter_append_perm _ _

/-- Claim C1, witness: the amended round trip at the concrete two-opportunity
state, with the lookup and uniqueness hypotheses discharged by evaluation. -/
theorem delete_undo_amended_witness :
    (undo (deleteOpportunity stateAB1 "OP-2025-A-1" true)).opportunities.Perm
      stateAB1.opportunities :=
  (delete_undo_amended stateAB1 "OP-2025-A-1" oppA (by decide) (by decide)).2.2.2.2.1

/-- Claim C9, counterexample: when exactly three tasks are due on one date,
the day cell shows all three task labels and no overflow indicator — not two
labels plus a `+1 more` one (`slice(0, 3)` keeps three and the overflow
condition is `length > 3`). -/
theorem calendar_three_tasks_counterexample :
    dayTasks threeTasks "2025-01-10" = [taskA, taskC, taskD]
    ∧ dayCellLabels threeTasks "2025-01-10"
        = ["Draft proposal", "Call client", "Send quote"]
    ∧ (dayCellLabels threeTasks "2025-01-10").length = 3
    ∧ dayCellMore threeTasks "2025-01-10" = none := by
  refine ⟨?_, ?_, ?_, ?_⟩ <;> decide

/-- Claim C9, amended: a day cell shows at most 3 task labels; the bucket of
a date is a sublist of the tasks collection (so same-date tasks appear in
stored, i.e. creation, order); with at most three due tasks all their labels
are shown and no overflow indicator appears, and only with more than three
does the cell show exactly 3 labels plus a `+(n-3) more` indicator — in
particular four tasks give 3 labels plus `+1 more`. -/
theorem calendar_day_cell_amended (ts : List Task) (date : String) :
    (dayCellLabels ts date).length ≤ 3
    ∧ (dayTasks ts date).Sublist ts
    ∧ ((dayTasks ts date).length ≤ 3 →
        dayCellLabels ts date = (dayTasks ts date).map (fun t => t.taskName)
        ∧ dayCellMore ts date = none)
    ∧ (3 < (dayTasks ts date).length →
        (dayCellLabels ts date).length = 3
        ∧ dayCellMore ts date = some ((dayTasks ts date).length - 3))
    ∧ (dayCellLabels fourTasks "2025-01-10").length = 3
    ∧ dayCellMore fourTasks "2025-01-10" = some 1 := by
  refine ⟨?_, List.filter_sublist _, ?_, ?_, by decide, by decide⟩
  · simp only [dayCellLabels, List.length_map, List.length_take]
    omega
  · intro h
    constructor
    · simp [dayCellLabels, List.take_of_length_le h]
    · simp [dayCellMore, Nat.not_lt.mpr h]
  · intro h
    constructor
    · simp only [dayCellLabels, List.length_map, List.length_take]
      omega
    · simp [dayCellMore, h]

/-- Claim C9, witness: the amended cell contract applied at the concrete
three-task date. -/
theorem calendar_day_cell_witness :
    dayCellLabels threeTasks "2025-01-10"
        = (dayTasks threeTasks "2025-01-10").map (fun t => t.taskName)
    ∧ dayCellMore threeTasks "2025-01-10" = none :=
  (calendar_day_cell_amended threeTasks "2025-01-10").2.2.1 (by decide)

/-! Helper lemmas for the derived-field invariant. -/

theorem goodOpp_filter {l : List Opportunity} {p : Opportunity → Bool}
    (h : ∀ o ∈ l, goodOpp o) : ∀ o ∈ l.filter p, goodOpp o :=
  fun o ho => h o (List.mem_of_mem_filter ho)

theorem goodOpp_setFirstStatus {l : List Opportunity} (id s : String)
    (h : ∀ o ∈ l, goodOpp o) :
    ∀ o ∈ setFirstOpportunityStatus l id s, goodOpp o := by
  induction l with
  | nil => intro o ho; simp [setFirstOpportunityStatus] at ho
  | cons b t ih =>
      intro o ho
      unfold setFirstOpportunityStatus at ho
      split at ho
      · rcases List.mem_cons.mp ho with rfl | hmem
        · exact h b (List.mem_cons_self b t)
        · exact h o (List.mem_cons_of_mem b hmem)
      · rcases List.mem_cons.mp ho with rfl | hmem
        · exact h o (List.mem_cons_self o t)
        · exact ih (fun x hx => h x (List.mem_cons_of_mem b hx)) o hmem

theorem goodOpp_foldl_setStatus (ids : List String) (s : String) :
    ∀ (l : List Opportunity), (∀ o ∈ l, goodOpp o) →
    ∀ o ∈ ids.foldl (fun opps id => setFirstOpportunityStatus opps id s) l,
      goodOpp o := by
  induction ids with
  | nil => intro l h o ho; exact h o ho
  | cons i rest ih =>
      intro l h o ho
      exact ih (setFirstOpportunityStatus l i s) (goodOpp_setFirstStatus i s h) o ho

theorem goodOpp_setFirstStage {l : List Opportunity} (id s : String)
    (h : ∀ o ∈ l, goodOpp o) :
    ∀ o ∈ setFirstOpportunityStage l id s, goodOpp o := by
  induction l with
  | nil => intro o ho; simp [setFirstOpportunityStage] at ho
  | cons b t ih =>
      intro o ho
      unfold setFirstOpportunityStage at ho
      split at ho
      · rcases List.mem_cons.mp ho with rfl | hmem
        · exact h b (List.mem_cons_self b t)
        · exact h o (List.mem_cons_of_mem b hmem)
      · rcases List.mem_cons.mp ho with rfl | hmem
        · exact h o (List.mem_cons_self o t)
        · exact ih (fun x hx => h x (List.mem_cons_of_mem b hx)) o hmem

theorem goodOpp_replaceFirst {l : List Opportunity} {newOpp : Opportunity}
    (editId : String) (h : ∀ o ∈ l, goodOpp o) (hnew : goodOpp newOpp) :
    ∀ o ∈ replaceFirstOpportunity l editId newOpp, goodOpp o := by
  induction l with
  | nil => intro o ho; simp [replaceFirstOpportunity] at ho
  | cons b t ih =>
      intro o ho
      unfold replaceFirstOpportunity at ho
      split at ho
      · rcases List.mem_cons.mp ho with rfl | hmem
        · exact hnew
        · exact h o (List.mem_cons_of_mem b hmem)
      · rcases List.mem_cons.mp ho with rfl | hmem
        · exact h o (List.mem_cons_self o t)
        · exact ih (fun x hx => h x (List.mem_cons_of_mem b hx)) o hmem

theorem goodOpp_collectBulkDeleted (opps : List Opportunity) (ts : List Task)
    (h : ∀ o ∈ opps, goodOpp o) :
    ∀ (ids : List String), ∀ o ∈ (collectBulkDeleted opps ts ids).1, goodOpp o := by
  intro ids
  induction ids with
  | nil => intro o ho; simp [collectBulkDeleted] at ho
  | cons i rest ih =>
      intro o ho
      unfold collectBulkDeleted at ho
      cases hf : opps.find? (fun x => x.id == i) with
      | some opp =>
          rw [hf] at ho
          rcases List.mem_cons.mp ho with rfl | hmem
          · exact h o (List.mem_of_find?_eq_some hf)
          · exact ih o hmem
      | none =>
          rw [hf] at ho
          exact ih o ho

theorem actionGood_addToUndoStack {s : List UndoAction} {a : UndoAction}
    (h : ∀ b ∈ s, actionGood b) (ha : actionGood a) :
    ∀ b ∈ addToUndoStack s a, actionGood b := by
  intro b hb
  rcases addToUndoStack_mem hb with hmem | rfl
  · exact h b hmem
  · exact ha

theorem Inv_undo {st : AppState} (h : Inv st) : Inv (undo st) := by
  obtain ⟨hops, hstack⟩ := h
  have hdrop : ∀ b ∈ st.undoStack.dropLast, actionGood b :=
    fun b hb => hstack b ((List.dropLast_sublist _).subset hb)
  unfold undo
  cases hl : st.undoStack.getLast? with
  | none => exact ⟨hops, hstack⟩
  | some a =>
      have ha : actionGood a := hstack a (List.mem_of_getLast?_eq_some hl)
      cases a with
      | delete_opportunity o ts =>
          refine ⟨?_, hdrop⟩
          intro x hx
          rcases List.mem_append.mp hx with hm | hm
          · exact hops x hm
          · exact ha x hm
      | delete_task t => exact ⟨hops, hdrop⟩
      | bulk_delete_opportunities os ts =>
          refine ⟨?_, hdrop⟩
          intro x hx
          rcases List.mem_append.mp hx with hm | hm
          · exact hops x hm
          · exact ha x hm
      | bulk_delete_tasks ts => exact ⟨hops, hdrop⟩

/-- Claim C3, counterexample: `importFromJSON` installs the file's records
verbatim — importing (with confirmation) a snapshot whose only opportunity
carries `expectedRevenue = 999` next to `dealValue = 100000`,
`probability = 40` leaves a stored record that violates the derived-field
invariant (`calculateExpectedRevenue` gives `40000`). -/
theorem import_breaks_invariant_counterexample :
    ¬ ∀ o ∈ (importFromJSON emptyState badSnap true).opportunities, goodOpp o := by
  intro h
  have hm := h { oppA with expectedRevenue := 999 }
    (by simp [importFromJSON, badSnap, DATA_VERSION, emptyState])
  obtain ⟨h1, -⟩ := hm
  norm_num [goodOpp, calculateExpectedRevenue, oppA] at h1

/-- Claim C3, amended: every state-changing operation other than JSON import
preserves the derived-field invariant — the form mutator recomputes the
derived fields through the calculators before storing, and delete, bulk
delete, bulk status update, undo, migration and the kanban stage move never
touch a derived field or its inputs; `importFromJSON`, however, copies the
file's records verbatim and can install opportunities whose derived fields
disagree with the calculators. -/
theorem invariant_preserved_amended (st : AppState) (hInv : Inv st)
    (form : OpportunityForm) (tform : TaskForm)
    (editingOpp editingTask : Option String)
    (newId id newStatus oppId newStage : String) (confirmed : Bool)
    (fromV toV : Int) :
    Inv (saveOpportunity st form editingOpp newId)
    ∧ Inv (saveTask st tform editingTask newId)
    ∧ Inv (deleteOpportunity st id confirmed)
    ∧ Inv (deleteTask st id confirmed)
    ∧ Inv (bulkDeleteOpportunities st confirmed)
    ∧ Inv (bulkDeleteTasks st confirmed)
    ∧ Inv (bulkUpdateOpportunityStatus st newStatus)
    ∧ Inv (bulkUpdateTaskStatus st newStatus)
    ∧ Inv (undo st)
    ∧ Inv (migrateData st fromV toV)
    ∧ Inv (handleDrop st oppId newStage) := by
  obtain ⟨hops, hstack⟩ := hInv
  refine ⟨?_, ?_, ?_, ?_, ?_, ?_, ?_, ?_, Inv_undo ⟨hops, hstack⟩, ?_, ?_⟩
  · unfold saveOpportunity
    cases editingOpp with
    | some editingId =>
        exact ⟨goodOpp_replaceFirst editingId hops ⟨rfl, rfl, rfl, rfl⟩, hstack⟩
    | none =>
        refine ⟨?_, hstack⟩
        intro o ho
        rcases List.mem_append.mp ho with hm | hm
        · exact hops o hm
        · rcases List.mem_singleton.mp hm with rfl
          exact ⟨rfl, rfl, rfl, rfl⟩
  · unfold saveTask
    cases editingTask with
    | some editingId => exact ⟨hops, hstack⟩
    | none => exact ⟨hops, hstack⟩
  · unfold deleteOpportunity
    split
    · exact ⟨hops, hstack⟩
    · refine ⟨goodOpp_filter hops, actionGood_addToUndoStack hstack ?_⟩
      show ∀ x ∈ _, goodOpp x
      cases hf : st.opportunities.find? (fun o => o.id == id) with
      | some opp =>
          intro x hx
          rcases List.mem_singleton.mp hx with rfl
          exact hops x (List.mem_of_find?_eq_some hf)
      | none => intro x hx; simp at hx
  · unfold deleteTask
    split
    · exact ⟨hops, hstack⟩
    · exact ⟨hops, actionGood_addToUndoStack hstack trivial⟩
  · unfold bulkDeleteOpportunities
    split
    · exact ⟨hops, hstack⟩
    · split
      · exact ⟨hops, hstack⟩
      · exact ⟨goodOpp_filter hops,
          actionGood_addToUndoStack hstack
            (goodOpp_collectBulkDeleted st.opportunities st.tasks hops
              st.selectedOpportunities)⟩
  · unfold bulkDeleteTasks
    split
    · exact ⟨hops, hstack⟩
    · split
      · exact ⟨hops, hstack⟩
      · exact ⟨hops, actionGood_addToUndoStack hstack trivial⟩
  · unfold bulkUpdateOpportunityStatus
    split
    · exact ⟨hops, hstack⟩
    · exact ⟨goodOpp_foldl_setStatus st.selectedOpportunities newStatus
        st.opportunities hops, hstack⟩
  · unfold bulkUpdateTaskStatus
    split
    · exact ⟨hops, hstack⟩
    · exact ⟨hops, hstack⟩
  · unfold migrateData
    split
    · exact ⟨hops, hstack⟩
    · exact ⟨hops, hstack⟩
  · unfold handleDrop
    cases hf : st.opportunities.find? (fun opp => opp.id == oppId) with
    | some opp => exact ⟨goodOpp_setFirstStage oppId newStage hops, hstack⟩
    | none => exact ⟨hops, hstack⟩

/-- Claim C3, witness: the preservation conjunction applied at a concrete
two-opportunity state whose records (and empty undo stack) satisfy the
invariant. -/
theorem invariant_preserved_witness :
    Inv (deleteOpportunity stateAB1 "OP-2025-A-1" true)
    ∧ Inv (undo stateAB1) := by
  have hInv : Inv stateAB1 := by
    refine ⟨?_, by simp [stateAB1, emptyState]⟩
    intro o ho
    simp only [stateAB1, emptyState, List.mem_cons, List.not_mem_nil, or_false] at ho
    rcases ho with rfl | rfl <;>
      norm_num [goodOpp, oppA, oppB, calculateExpectedRevenue, calculateBANT,
        MAX_BANT_SCORE, BANT_THRESHOLDS_HOT, BANT_THRESHOLDS_WARM]
  have h := invariant_preserved_amended stateAB1 hInv
    { name := "N", client := "C", industry := "Healthcare", salesOwner := "",
      preSalesOwner := "", ba := "", techType := "AI", source := "RFP",
      dateIdentified := "", expectedClose := "", stage := "Lead",
      status := "Open", dealValue := 10, probability := 50, competition := "",
      contactName := "", contactEmail := "", budget := 1, authority := 1,
      need := 1, timeline := 1 }
    { opportunityId := "OP-2025-A-1", taskName := "T", assignedTo := "",
      role := "Sales", taskType := "Document", startDate := "", dueDate := "",
      status := "Not Started", remarks := "" }
    none none "OP-NEW" "OP-2025-A-1" "Won" "OP-2025-A-1" "Qualified" true 1 2
  exact ⟨h.2.2.1, h.2.2.2.2.2.2.2.2.1⟩

/-! Helper lemmas about the sort comparator and stable sorting. -/

theorem jsCompare_asc_le {α : Type} [LinearOrder α] (a b : α) :
    jsCompare .asc a b ≤ 0 ↔ a ≤ b := by
  unfold jsCompare
  split_ifs with h1 h2
  · exact iff_of_true (by norm_num) (le_of_lt h1)
  · exact iff_of_false (by norm_num) (not_le.mpr h2)
  · exact iff_of_true (by norm_num)
      (le_of_eq (le_antisymm (le_of_not_lt h2) (le_of_not_lt h1)))

theorem jsCompare_desc_le {α : Type} [LinearOrder α] (a b : α) :
    jsCompare .desc a b ≤ 0 ↔ b ≤ a := by
  unfold jsCompare
  split_ifs with h1 h2
  · exact iff_of_false (by norm_num) (not_le.mpr h1)
  · exact iff_of_true (by norm_num) (le_of_lt h2)
  · exact iff_of_true (by norm_num)
      (le_of_eq (le_antisymm (le_of_not_lt h1) (le_of_not_lt h2)))

theorem jsCompare_le_toggle {α : Type} [LinearOrder α] (d : SortDirection) (a b : α) :
    jsCompare d.toggle a b ≤ 0 ↔ jsCompare d b a ≤ 0 := by
  cases d
  · rw [show SortDirection.asc.toggle = SortDirection.desc from rfl,
      jsCompare_desc_le, jsCompare_asc_le]
  · rw [show SortDirection.desc.toggle = SortDirection.asc from rfl,
      jsCompare_asc_le, jsCompare_desc_le]

theorem jsCompare_le_total {α : Type} [LinearOrder α] (d : SortDirection) (a b : α) :
    jsCompare d a b ≤ 0 ∨ jsCompare d b a ≤ 0 := by
  cases d
  · rw [jsCompare_asc_le, jsCompare_asc_le]
    exact le_total a b
  · rw [jsCompare_desc_le, jsCompare_desc_le]
    exact le_total b a

theorem jsCompare_le_trans {α : Type} [LinearOrder α] (d : SortDirection) (a b c : α) :
    jsCompare d a b ≤ 0 → jsCompare d b c ≤ 0 → jsCompare d a c ≤ 0 := by
  cases d
  · rw [jsCompare_asc_le, jsCompare_asc_le, jsCompare_asc_le]
    exact le_trans
  · rw [jsCompare_desc_le, jsCompare_desc_le, jsCompare_desc_le]
    exact fun h1 h2 => le_trans h2 h1

theorem jsCompare_le_antisymm {α : Type} [LinearOrder α] (d : SortDirection) (a b : α) :
    jsCompare d a b ≤ 0 → jsCompare d b a ≤ 0 → a = b := by
  cases d
  · rw [jsCompare_asc_le, jsCompare_asc_le]
    exact le_antisymm
  · rw [jsCompare_desc_le, jsCompare_desc_le]
    exact fun h1 h2 => le_antisymm h2 h1

theorem pairwise_insertionSort_of {α : Type} (r : α → α → Prop) [DecidableRel r]
    (htot : ∀ a b, r a b ∨ r b a) (htrans : ∀ a b c, r a b → r b c → r a c)
    (l : List α) : (l.insertionSort r).Pairwise r := by
  haveI : IsTotal α r := ⟨htot⟩
  haveI : IsTrans α r := ⟨fun a b c => htrans a b c⟩
  exact List.sorted_insertionSort r l

/-- Two sorted permutations of one another are equal, given antisymmetry of
the order on the elements involved. -/
theorem sorted_perm_eq {α : Type} {R : α → α → Prop} :
    ∀ {l₁ l₂ : List α}, l₁.Perm l₂ → l₁.Pairwise R → l₂.Pairwise R →
      (∀ a ∈ l₁, ∀ b ∈ l₁, R a b → R b a → a = b) → l₁ = l₂ := by
  intro l₁
  induction l₁ with
  | nil =>
      intro l₂ p _ _ _
      have := p.length_eq
      cases l₂ with
      | nil => rfl
      | cons b t => simp at this
  | cons a t ih =>
      intro l₂ p s₁ s₂ anti
      cases l₂ with
      | nil =>
          have := p.length_eq
          simp at this
      | cons b t₂ =>
          have hab : a = b := by
            have ha₂ : a ∈ b :: t₂ := p.subset (List.mem_cons_self a t)
            rcases List.mem_cons.mp ha₂ with h | h
            · exact h
            · have hba : R b a := (List.pairwise_cons.mp s₂).1 a h
              have hb₁ : b ∈ a :: t := p.symm.subset (List.mem_cons_self b t₂)
              rcases List.mem_cons.mp hb₁ with h' | h'
              · exact h'.symm
              · have hab' : R a b := (List.pairwise_cons.mp s₁).1 b h'
                exact anti a (List.mem_cons_self a t) b (List.mem_cons_of_mem a h')
                  hab' hba
          subst hab
          have ht : t = t₂ := ih p.cons_inv (List.pairwise_cons.mp s₁).2
            (List.pairwise_cons.mp s₂).2
            (fun x hx y hy => anti x (List.mem_cons_of_mem a hx) y
              (List.mem_cons_of_mem a hy))
          rw [ht]

/-- Stable-sorting a permutation of `l` with the flipped comparator yields
exactly the reverse of stable-sorting `l`, provided the comparator is
antisymmetric on the records of `l` (no ties). -/
theorem insertionSort_flip_reverse {α : Type} (P Q : α → α → Prop)
    [DecidableRel P] [DecidableRel Q] (l l' : List α) (hp : l'.Perm l)
    (htot : ∀ a b, P a b ∨ P b a)
    (htrans : ∀ a b c, P a b → P b c → P a c)
    (hQ : ∀ a b, Q a b ↔ P b a)
    (hanti : ∀ a ∈ l, ∀ b ∈ l, P a b → P b a → a = b) :
    l'.insertionSort Q = (l.insertionSort P).reverse := by
  have htotQ : ∀ a b, Q a b ∨ Q b a := fun a b =>
    (htot b a).imp (hQ a b).mpr (hQ b a).mpr
  have htransQ : ∀ a b c, Q a b → Q b c → Q a c := fun a b c hab hbc =>
    (hQ a c).mpr (htrans c b a ((hQ b c).mp hbc) ((hQ a b).mp hab))
  have hs : (l.insertionSort P).Pairwise P := pairwise_insertionSort_of P htot htrans l
  have hs' : (l'.insertionSort Q).Pairwise Q :=
    pairwise_insertionSort_of Q htotQ htransQ l'
  have hrev : (l.insertionSort P).reverse.Pairwise Q := by
    rw [List.pairwise_reverse]
    exact hs.imp (fun h => (hQ _ _).mpr h)
  have hperm : (l'.insertionSort Q).Perm ((l.insertionSort P).reverse) :=
    ((List.perm_insertionSort Q l').trans hp).trans
      (((List.perm_insertionSort P l).symm).trans (List.reverse_perm _).symm)
  have hmem : ∀ x ∈ l'.insertionSort Q, x ∈ l := fun x hx =>
    hp.subset ((List.perm_insertionSort Q l').subset hx)
  exact sorted_perm_eq hperm hs' hrev
    (fun a ha b hb h1 h2 =>
      hanti a (hmem a ha) b (hmem b hb) ((hQ b a).mp h2) ((hQ a b).mp h1))

theorem sortOpportunities_same (st : AppState) (c : OppColumn)
    (h : st.opportunitySortColumn = some c) :
    sortOpportunities st c =
      { st with
        opportunitySortColumn := some c
        opportunitySortDirection := st.opportunitySortDirection.toggle
        opportunities := st.opportunities.insertionSort
          (oppSortLe c st.opportunitySortDirection.toggle) } := by
  unfold sortOpportunities
  rw [if_pos h]

theorem sortOpportunities_new (st : AppState) (c : OppColumn)
    (h : ¬ st.opportunitySortColumn = some c) :
    sortOpportunities st c =
      { st with
        opportunitySortColumn := some c
        opportunitySortDirection := .asc
        opportunities := st.opportunities.insertionSort (oppSortLe c .asc) } := by
  unfold sortOpportunities
  rw [if_neg h]

theorem sortTasks_same (st : AppState) (c : TaskColumn)
    (h : st.taskSortColumn = some c) :
    sortTasks st c =
      { st with
        taskSortColumn := some c
        taskSortDirection := st.taskSortDirection.toggle
        tasks := st.tasks.insertionSort (taskSortLe c st.taskSortDirection.toggle) } := by
  unfold sortTasks
  rw [if_pos h]

theorem sortTasks_new (st : AppState) (c : TaskColumn)
    (h : ¬ st.taskSortColumn = some c) :
    sortTasks st c =
      { st with
        taskSortColumn := some c
        taskSortDirection := .asc
        tasks := st.tasks.insertionSort (taskSortLe c .asc) } := by
  unfold sortTasks
  rw [if_neg h]

/-- Claim C7, counterexample: with a tie on the sorted column the second sort
is not the exact reverse of the first — the stable sort keeps the two
same-name opportunities in their original relative order in both passes, so
the reversed first ordering (which swaps them) differs. -/
theorem sort_toggle_tie_counterexample :
    (sortOpportunities (sortOpportunities stateTie .name) .name).opportunities
      ≠ ((sortOpportunities stateTie .name).opportunities).reverse := by
  decide

/-- Claim C7, amended: clicking a column records it and, on a repeated click,
flips the direction; the repeated sort equals the stable sort under the
flipped comparator, which is the exact reverse of the first ordering whenever
the column's keys are pairwise distinct in the collection (with ties, tie
groups keep their relative order instead of being reversed); sorting by a
different column always resets to ascending.  This holds for both the
opportunities table and the tasks table; only the name/client
(resp. taskName/assignedTo) column keys are lowercased, the other string
columns compare raw code units. -/
theorem sort_toggle_amended (st : AppState) (X Y : OppColumn) (X' Y' : TaskColumn) :
    ((sortOpportunities st X).opportunitySortColumn = some X
      ∧ (sortOpportunities (sortOpportunities st X) X).opportunitySortDirection
          = (sortOpportunities st X).opportunitySortDirection.toggle)
    ∧ ((st.opportunities.map (oppVal X)).Nodup →
        (sortOpportunities (sortOpportunities st X) X).opportunities
          = (sortOpportunities st X).opportunities.reverse)
    ∧ (Y ≠ X →
        (sortOpportunities (sortOpportunities st X) Y).opportunitySortDirection
            = .asc
        ∧ (sortOpportunities (sortOpportunities st X) Y).opportunities
            = (sortOpportunities st X).opportunities.insertionSort (oppSortLe Y .asc))
    ∧ ((sortTasks st X').taskSortColumn = some X'
      ∧ (sortTasks (sortTasks st X') X').taskSortDirection
          = (sortTasks st X').taskSortDirection.toggle)
    ∧ ((st.tasks.map (taskVal X')).Nodup →
        (sortTasks (sortTasks st X') X').tasks = (sortTasks st X').tasks.reverse)
    ∧ (Y' ≠ X' →
        (sortTasks (sortTasks st X') Y').taskSortDirection = .asc
        ∧ (sortTasks (sortTasks st X') Y').tasks
            = (sortTasks st X').tasks.insertionSort (taskSortLe Y' .asc)) := by
  have hA2 := sortOpportunities_same (sortOpportunities st X) X rfl
  have hT2 := sortTasks_same (sortTasks st X') X' rfl
  refine ⟨⟨rfl, by rw [hA2]⟩, ?_, ?_, ⟨rfl, by rw [hT2]⟩, ?_, ?_⟩
  · intro hnd
    have e2 : (sortOpportunities (sortOpportunities st X) X).opportunities
        = (sortOpportunities st X).opportunities.insertionSort
            (oppSortLe X (sortOpportunities st X).opportunitySortDirection.toggle) := by
      rw [hA2]
    rw [e2]
    have hLperm : (sortOpportunities st X).opportunities.Perm st.opportunities :=
      List.perm_insertionSort _ _
    have hndL : ((sortOpportunities st X).opportunities.map (oppVal X)).Nodup :=
      ((hLperm.map (oppVal X)).nodup_iff).mpr hnd
    have htot : ∀ a b, oppSortLe X (sortOpportunities st X).opportunitySortDirection a b
        ∨ oppSortLe X (sortOpportunities st X).opportunitySortDirection b a :=
      fun a b => jsCompare_le_total _ _ _
    have htrans : ∀ a b c,
        oppSortLe X (sortOpportunities st X).opportunitySortDirection a b →
        oppSortLe X (sortOpportunities st X).opportunitySortDirection b c →
        oppSortLe X (sortOpportunities st X).opportunitySortDirection a c :=
      fun a b c => jsCompare_le_trans _ _ _ _
    have hanti : ∀ a ∈ (sortOpportunities st X).opportunities,
        ∀ b ∈ (sortOpportunities st X).opportunities,
        oppSortLe X (sortOpportunities st X).opportunitySortDirection a b →
        oppSortLe X (sortOpportunities st X).opportunitySortDirection b a → a = b :=
      fun a ha b hb h1 h2 =>
        List.inj_on_of_nodup_map hndL ha hb (jsCompare_le_antisymm _ _ _ h1 h2)
    have key := insertionSort_flip_reverse
      (oppSortLe X (sortOpportunities st X).opportunitySortDirection)
      (oppSortLe X (sortOpportunities st X).opportunitySortDirection.toggle)
      (sortOpportunities st X).opportunities (sortOpportunities st X).opportunities
      (List.Perm.refl _) htot htrans (fun a b => jsCompare_le_toggle _ _ _) hanti
    rw [key]
    have hsorted : (sortOpportunities st X).opportunities.Pairwise
        (oppSortLe X (sortOpportunities st X).opportunitySortDirection) :=
      pairwise_insertionSort_of _ htot htrans st.opportunities
    rw [List.Sorted.insertionSort_eq hsorted]
  · intro hYX
    have hne : ¬ (sortOpportunities st X).opportunitySortColumn = some Y := by
      intro h
      rw [show (sortOpportunities st X).opportunitySortColumn = some X from rfl] at h
      exact hYX (Option.some.inj h).symm
    have hnew := sortOpportunities_new (sortOpportunities st X) Y hne
    exact ⟨by rw [hnew], by rw [hnew]⟩
  · intro hnd
    have e2 : (sortTasks (sortTasks st X') X').tasks
        = (sortTasks st X').tasks.insertionSort
            (taskSortLe X' (sortTasks st X').taskSortDirection.toggle) := by
      rw [hT2]
    rw [e2]
    have hLperm : (sortTasks st X').tasks.Perm st.tasks :=
      List.perm_insertionSort _ _
    have hndL : ((sortTasks st X').tasks.map (taskVal X')).Nodup :=
      ((hLperm.map (taskVal X')).nodup_iff).mpr hnd
    have htot : ∀ a b, taskSortLe X' (sortTasks st X').taskSortDirection a b
        ∨ taskSortLe X' (sortTasks st X').taskSortDirection b a :=
      fun a b => jsCompare_le_total _ _ _
    have htrans : ∀ a b c,
        taskSortLe X' (sortTasks st X').taskSortDirection a b →
        taskSortLe X' (sortTasks st X').taskSortDirection b c →
        taskSortLe X' (sortTasks st X').taskSortDirection a c :=
      fun a b c => jsCompare_le_trans _ _ _ _
    have hanti : ∀ a ∈ (sortTasks st X').tasks, ∀ b ∈ (sortTasks st X').tasks,
        taskSortLe X' (sortTasks st X').taskSortDirection a b →
        taskSortLe X' (sortTasks st X').taskSortDirection b a → a = b :=
      fun a ha b hb h1 h2 =>
        List.inj_on_of_nodup_map hndL ha hb (jsCompare_le_antisymm _ _ _ h1 h2)
    have key := insertionSort_flip_reverse
      (taskSortLe X' (sortTasks st X').taskSortDirection)
      (taskSortLe X' (sortTasks st X').taskSortDirection.toggle)
      (sortTasks st X').tasks (sortTasks st X').tasks
      (List.Perm.refl _) htot htrans (fun a b => jsCompare_le_toggle _ _ _) hanti
    rw [key]
    have hsorted : (sortTasks st X').tasks.Pairwise
        (taskSortLe X' (sortTasks st X').taskSortDirection) :=
      pairwise_insertionSort_of _ htot htrans st.tasks
    rw [List.Sorted.insertionSort_eq hsorted]
  · intro hYX
    have hne : ¬ (sortTasks st X').taskSortColumn = some Y' := by
      intro h
      rw [show (sortTasks st X').taskSortColumn = some X' from rfl] at h
      exact hYX (Option.some.inj h).symm
    have hnew := sortTasks_new (sortTasks st X') Y' hne
    exact ⟨by rw [hnew], by rw [hnew]⟩

/-- Claim C7, witness: on a tie-free concrete collection, sorting by name
twice yields exactly the reverse of the first sort. -/
theorem sort_toggle_amended_witness :
    (sortOpportunities (sortOpportunities stateBA .name) .name).opportunities
      = ((sortOpportunities stateBA .name).opportunities).reverse :=
  (sort_toggle_amended stateBA .name .client .taskName .dueDate).2.1 (by decide)

end PresalesTracker
